import Mathlib

/-!
Verification of the bulk-insert library in src/insert.go.

A shallow embedding of the bulk-insert core of `calebthompson/bulk`:

* the batch-planning arithmetic of `Insert.Exec` (src/insert.go lines 43-50),
  including the rebalancing loop, modelled with explicit fuel so that
  non-termination of the Go `for leftovers > batchSize` loop is observable
  as `none`;
* the placeholder-expression builder `valuePlaceholders`
  (src/insert.go lines 104-119);
* the batch-execution control flow of `Exec` (src/insert.go lines 51-96),
  modelled as a pure function from oracles for the two external database
  capabilities (statement prepare and statement execute) to the trace of
  database round trips, the aggregated result, and the returned error;
* the result aggregator `result.add`, whose type is not part of the sources
  here and is therefore modelled from the specification (section 4.4).

The Go `int` values in play (lengths, counts, indices) are non-negative
throughout, so they are modelled as `Nat`; rows-affected counts and insert
identifiers are driver-level `int64` values modelled as `Int` (no arithmetic
in the code can overflow 64 bits for any input a process could hold).
-/

/-- src/insert.go line 30: `const MaxBindVars = 65535`. -/
def MaxBindVars : Nat := 65535

/-- The rebalancing loop of `Exec` (src/insert.go lines 47-50):
`for leftovers > batchSize { batches++; leftovers -= batchSize }`.
The Go loop has no fuel; here `fuel` bounds the number of iterations and
`none` means the loop was still running when the fuel ran out.  With
`fuel = leftovers` this is exact: the loop either needs at most `leftovers`
iterations (each one removes `batchSize ≥ 1` from `leftovers`) or runs
forever (`batchSize = 0` and `leftovers > 0` keep the guard true for ever). -/
def rebalance (batchSize : Nat) : Nat → Nat → Nat → Option (Nat × Nat)
  | 0, batches, leftovers =>
      if batchSize < leftovers then none else some (batches, leftovers)
  | fuel + 1, batches, leftovers =>
      if batchSize < leftovers then
        rebalance batchSize fuel (batches + 1) (leftovers - batchSize)
      else some (batches, leftovers)

/-- The batch-planning arithmetic of `Exec` (src/insert.go lines 43-50):
from `rowCount = len(rows)` and `columnCount = len(s.Casts)` compute
`(batches, batchSize, leftovers)` — the number of regular batches, their
common size, and the size of the final leftover batch.  `none` means the
rebalancing loop does not terminate.  In the `batches == 0` branch the Go
code never computes `batchSize`; the tuple records `0` there. -/
def planRaw (rowCount columnCount : Nat) : Option (Nat × Nat × Nat) :=
  let batches := columnCount * rowCount / MaxBindVars
  if 0 < batches then
    let batchSize := rowCount / (batches + 1)
    let leftovers := rowCount - batchSize * batches
    (rebalance batchSize leftovers batches leftovers).map
      (fun p => (p.1, batchSize, p.2))
  else
    some (0, 0, rowCount)

/-- The planned batch sizes, in execution order: `batches` regular batches of
`batchSize` rows each (src/insert.go line 57-59), then the final leftover
batch (src/insert.go line 85). -/
def planSizes (rowCount columnCount : Nat) : Option (List Nat) :=
  (planRaw rowCount columnCount).map
    (fun p => List.replicate p.1 p.2.1 ++ [p.2.2])

/-- The row slices consumed by the planned batches, in execution order:
regular batch `i` takes `rows[i*batchSize : i*batchSize+batchSize]`
(src/insert.go line 59) and the final batch takes
`rows[len(rows)-leftovers:]` (src/insert.go line 85). -/
def plannedSlices {ρ : Type} (rows : List ρ) (batches batchSize leftovers : Nat) :
    List (List ρ) :=
  ((List.range batches).map (fun i => (rows.drop (i * batchSize)).take batchSize))
    ++ [rows.drop (rows.length - leftovers)]

/-- A driver-level execution result (`sql.Result`): rows affected and the
last generated identifier. -/
structure SqlResult where
  rowsAffected : Int
  lastInsertId : Int
  deriving DecidableEq

/-- Modelled from the spec: the repository's aggregate `result` type is not
among the sources here (src/insert.go only declares the field `result result`
and calls `s.result.add(res)`); section 4.4 of the specification defines it:
rows-affected accumulates by sum, the generated identifier is overwritten by
the latest batch (last-write-wins). -/
structure result where
  rowsAffected : Int
  lastInsertId : Int
  deriving DecidableEq

/-- Modelled from the spec (section 4.4): fold one batch result into the
running aggregate — `s.result.add(res)` at src/insert.go lines 68 and 94. -/
def result.add (r : result) (res : SqlResult) : result :=
  ⟨r.rowsAffected + res.rowsAffected, res.lastInsertId⟩

/-- Fold a list of batch results into the aggregate, first to last. -/
def result.addAll (r : result) (l : List SqlResult) : result :=
  l.foldl result.add r

/-- One round trip to the external database collaborator:
`s.prepare(count)` (src/insert.go lines 52 and 79, recorded with the
placeholder row count it was called with), `s.stmt.Exec(args...)`
(src/insert.go lines 64 and 90, recorded with its flattened argument list),
and `s.stmt.Close()` (the deferred calls at src/insert.go lines 56 and 83). -/
inductive DbEvent (V : Type) where
  | prep (count : Nat)
  | execStmt (args : List V)
  | close
  deriving DecidableEq

/-- Whether an event is a statement-prepare round trip. -/
def DbEvent.isPrep {V : Type} : DbEvent V → Bool
  | .prep _ => true
  | _ => false

/-- Whether an event is a statement-execute round trip. -/
def DbEvent.isExec {V : Type} : DbEvent V → Bool
  | .execStmt _ => true
  | _ => false

/-- Whether an event is a statement release. -/
def DbEvent.isClose {V : Type} : DbEvent V → Bool
  | .close => true
  | _ => false

/-- The flattened argument list of regular batch `i`
(src/insert.go lines 58-63): the rows of `rows[i*batchSize : i*batchSize+batchSize]`
appended value by value, row-major. -/
def batchArgs {V : Type} (rows : List (List V)) (batchSize i : Nat) : List V :=
  ((rows.drop (i * batchSize)).take batchSize).flatten

/-- The regular-batch loop of `Exec` (src/insert.go lines 57-69): starting at
batch index `i` with `n` batches still to run and aggregate `res`, execute
each batch through the (already prepared) statement.  `execOut k` is the
external database's answer to the `k`-th statement-execute call of this
`Exec` invocation.  Returns the statement-execute events issued, the
aggregate after the loop, and the first error, if any. -/
def regularLoop {V E : Type} (execOut : Nat → Except E SqlResult)
    (rows : List (List V)) (batchSize : Nat) :
    Nat → Nat → result → List (DbEvent V) × result × Option E
  | _, 0, res => ([], res, none)
  | i, n + 1, res =>
    match execOut i with
    | .error e => ([.execStmt (batchArgs rows batchSize i)], res, some e)
    | .ok r =>
      let rest := regularLoop execOut rows batchSize (i + 1) n (res.add r)
      (.execStmt (batchArgs rows batchSize i) :: rest.1, rest.2)

/-- The leftover-batch tail of `Exec` (src/insert.go lines 79-95): prepare a
statement for `leftovers` placeholder rows (`prepOut prepIdx` is the external
database's answer to prepare call number `prepIdx`), flatten
`rows[len(rows)-leftovers:]`, execute (`execOut execIdx`), fold the result
in, and release the statement.  On prepare failure nothing was acquired, so
no release happens; on execute failure the deferred release still runs. -/
def leftoverRun {V E : Type} (prepOut : Nat → Option E)
    (execOut : Nat → Except E SqlResult) (rows : List (List V))
    (leftovers prepIdx execIdx : Nat) (res : result) :
    List (DbEvent V) × result × Option E :=
  match prepOut prepIdx with
  | some e => ([.prep leftovers], res, some e)
  | none =>
    let args := (rows.drop (rows.length - leftovers)).flatten
    match execOut execIdx with
    | .error e => ([.prep leftovers, .execStmt args, .close], res, some e)
    | .ok r => ([.prep leftovers, .execStmt args, .close], res.add r, none)

/-- The operation `Insert.Exec` (src/insert.go lines 37-96), as a pure function of the two
external capabilities.  `prepOut n` answers the `n`-th statement-prepare call
(`none` = success) and `execOut k` answers the `k`-th statement-execute call.
Returns `none` when the rebalancing loop diverges; otherwise the trace of
database round trips, the final aggregate (which is also the returned
`sql.Result`, since the Go code returns `s.result` on every path), and the
returned error.  In the `batches > 0` branch one statement is prepared for
all regular batches (line 52), closed by the `defer` (line 56) when the
closure returns, and only then is the leftover statement prepared (line 79). -/
def ExecModel {V E : Type} (prepOut : Nat → Option E)
    (execOut : Nat → Except E SqlResult) (casts : List String) (res0 : result)
    (rows : List (List V)) : Option (List (DbEvent V) × result × Option E) :=
  match planRaw rows.length casts.length with
  | none => none
  | some (batches, batchSize, leftovers) =>
    if 0 < batches then
      match prepOut 0 with
      | some e => some ([DbEvent.prep batchSize], res0, some e)
      | none =>
        let run := regularLoop execOut rows batchSize 0 batches res0
        match run.2.2 with
        | some e =>
          some (DbEvent.prep batchSize :: run.1 ++ [DbEvent.close], run.2.1, some e)
        | none =>
          let fin := leftoverRun prepOut execOut rows leftovers 1 batches run.2.1
          some (DbEvent.prep batchSize :: run.1 ++ [DbEvent.close] ++ fin.1, fin.2)
    else
      some (leftoverRun prepOut execOut rows leftovers 0 0 res0)

/-- The inner loop of `valuePlaceholders` (src/insert.go lines 107-115):
`for j, cast := range casts` with running column index `j`, appending
`$placeCount` or `$placeCount::cast` where
`placeCount = i*len(s.Casts)+j+1`; `C` is `len(s.Casts)`. -/
def rowPlaceholders (C i : Nat) : List String → Nat → List String
  | [], _ => []
  | cast :: rest, j =>
    (if cast = "" then "$" ++ toString (i * C + j + 1)
     else "$" ++ toString (i * C + j + 1) ++ "::" ++ cast)
      :: rowPlaceholders C i rest (j + 1)

/-- The method `Insert.valuePlaceholders` (src/insert.go lines 104-119): `count`
parenthesized placeholder groups, one per row, joined by `",\n"`, each group
the comma-joined placeholders of one row. -/
def valuePlaceholders (casts : List String) (count : Nat) : String :=
  String.intercalate ",\n" ((List.range count).map
    (fun i =>
      "(" ++ String.intercalate ", " (rowPlaceholders casts.length i casts 0) ++ ")"))

/-- Spec-side rendering of a single placeholder (specification section 4.2):
parameter number `n` renders as `$n::cast` when the cast annotation is
non-empty and as plain `$n` otherwise.  Used to state the refinement between
`valuePlaceholders` and the specification's description. -/
def specPlaceholder (n : Nat) (cast : String) : String :=
  if cast = "" then "$" ++ toString n else "$" ++ toString n ++ "::" ++ cast

/-- The rebalancing loop diverges from the state
`(batchSize, batches, leftovers)`: no amount of fuel makes it finish. -/
def rebalanceStuck (batchSize batches leftovers : Nat) : Prop :=
  ∀ fuel, rebalance batchSize fuel batches leftovers = none

/-! ## Properties of the rebalancing loop -/

theorem rebalance_of_le (batchSize fuel batches leftovers : Nat)
    (h : leftovers ≤ batchSize) :
    rebalance batchSize fuel batches leftovers = some (batches, leftovers) := by
  cases fuel <;> simp [rebalance, Nat.not_lt.mpr h]

theorem rebalance_post (batchSize fuel : Nat) :
    ∀ batches leftovers b' l',
      rebalance batchSize fuel batches leftovers = some (b', l') →
      l' ≤ batchSize ∧
        b' * batchSize + l' = batches * batchSize + leftovers ∧
        batches ≤ b' ∧ (0 < leftovers → 0 < l') := by
  induction fuel with
  | zero =>
    intro batches leftovers b' l' h
    by_cases hlt : batchSize < leftovers
    · simp [rebalance, hlt] at h
    · simp [rebalance, hlt] at h
      obtain ⟨h1, h2⟩ := h
      subst h1; subst h2
      exact ⟨Nat.not_lt.mp hlt, rfl, le_refl _, fun hp => hp⟩
  | succ fuel ih =>
    intro batches leftovers b' l' h
    by_cases hlt : batchSize < leftovers
    · rw [show rebalance batchSize (fuel+1) batches leftovers
          = rebalance batchSize fuel (batches+1) (leftovers - batchSize)
          from by simp [rebalance, hlt]] at h
      obtain ⟨h1, h2, h3, _⟩ := ih (batches+1) (leftovers - batchSize) b' l' h
      have e1 : (batches + 1) * batchSize = batches * batchSize + batchSize := by
        ring
      refine ⟨h1, by omega, by omega, fun _ => ?_⟩
      exact ((ih (batches+1) (leftovers - batchSize) b' l' h).2.2.2) (by omega)
    · simp [rebalance, hlt] at h
      obtain ⟨h1, h2⟩ := h
      subst h1; subst h2
      exact ⟨Nat.not_lt.mp hlt, rfl, le_refl _, fun hp => hp⟩

theorem rebalance_isSome (batchSize : Nat) (hbs : 0 < batchSize) (fuel : Nat) :
    ∀ batches leftovers, leftovers ≤ fuel →
      (rebalance batchSize fuel batches leftovers).isSome := by
  induction fuel with
  | zero =>
    intro batches leftovers hl
    have : leftovers = 0 := by omega
    subst this
    simp [rebalance]
  | succ fuel ih =>
    intro batches leftovers hl
    by_cases hlt : batchSize < leftovers
    · rw [show rebalance batchSize (fuel+1) batches leftovers
          = rebalance batchSize fuel (batches+1) (leftovers - batchSize)
          from by simp [rebalance, hlt]]
      exact ih (batches+1) (leftovers - batchSize) (by omega)
    · simp [rebalance, hlt]

theorem rebalance_zero_stuck (batches leftovers : Nat) (hl : 0 < leftovers) :
    rebalanceStuck 0 batches leftovers := by
  intro fuel
  induction fuel generalizing batches with
  | zero => simp [rebalance, hl]
  | succ fuel ih =>
    rw [show rebalance 0 (fuel+1) batches leftovers
        = rebalance 0 fuel (batches+1) (leftovers - 0)
        from by simp [rebalance, hl]]
    simpa using ih (batches+1)

/-! ## Properties of the batch planner -/

theorem planRaw_spec (R C b bs l : Nat) (h : planRaw R C = some (b, bs, l)) :
    (C * R / MaxBindVars = 0 ∧ b = 0 ∧ bs = 0 ∧ l = R) ∨
    (0 < C * R / MaxBindVars ∧ bs = R / (C * R / MaxBindVars + 1) ∧
      rebalance bs (R - bs * (C * R / MaxBindVars)) (C * R / MaxBindVars)
        (R - bs * (C * R / MaxBindVars)) = some (b, l)) := by
  by_cases h0 : 0 < C * R / MaxBindVars
  · right
    simp only [planRaw, if_pos h0] at h
    set bs0 := R / (C * R / MaxBindVars + 1) with hbs0
    set l0 := R - bs0 * (C * R / MaxBindVars) with hl0
    cases hreb : rebalance bs0 l0 (C * R / MaxBindVars) l0 with
    | none => rw [hreb] at h; simp at h
    | some p =>
      obtain ⟨p1, p2⟩ := p
      rw [hreb] at h
      simp only [Option.map_some', Option.some_inj, Prod.mk.injEq] at h
      obtain ⟨e1, e2, e3⟩ := h
      refine ⟨h0, e2.symm, ?_⟩
      rw [← e2, ← e1, ← e3]
      exact hreb
  · left
    simp only [planRaw, if_neg h0, Option.some_inj, Prod.mk.injEq] at h
    obtain ⟨e1, e2, e3⟩ := h
    exact ⟨Nat.eq_zero_of_not_pos h0, e1.symm, e2.symm, e3.symm⟩

theorem planRaw_sum (R C b bs l : Nat) (h : planRaw R C = some (b, bs, l)) :
    b * bs + l = R := by
  rcases planRaw_spec R C b bs l h with ⟨_, hb, hbs, hl⟩ | ⟨h0, hbs, hreb⟩
  · subst hb; subst hbs; subst hl; simp
  · obtain ⟨_, hsum, _, _⟩ :=
      rebalance_post bs (R - bs * (C * R / MaxBindVars)) (C * R / MaxBindVars)
        (R - bs * (C * R / MaxBindVars)) b l hreb
    have hmul : bs * (C * R / MaxBindVars + 1) ≤ R := by
      rw [hbs]; exact Nat.div_mul_le_self R _
    have e1 : bs * (C * R / MaxBindVars + 1)
        = (C * R / MaxBindVars) * bs + bs := by ring
    have e2 : bs * (C * R / MaxBindVars) = (C * R / MaxBindVars) * bs := by ring
    omega

theorem planRaw_l_le_bs (R C b bs l : Nat) (h : planRaw R C = some (b, bs, l))
    (hb : 0 < b) : l ≤ bs := by
  rcases planRaw_spec R C b bs l h with ⟨_, hb0, _, _⟩ | ⟨_, _, hreb⟩
  · omega
  · exact (rebalance_post bs _ _ _ b l hreb).1

theorem planRaw_l_pos (R C b bs l : Nat) (h : planRaw R C = some (b, bs, l))
    (hb : 0 < b) (hbs : 0 < bs) : 0 < l := by
  rcases planRaw_spec R C b bs l h with ⟨_, hb0, _, _⟩ | ⟨h0, hbseq, hreb⟩
  · omega
  · have hmul : bs * (C * R / MaxBindVars + 1) ≤ R := by
      rw [hbseq]; exact Nat.div_mul_le_self R _
    have e1 : bs * (C * R / MaxBindVars + 1)
        = bs * (C * R / MaxBindVars) + bs := by ring
    have hl0 : 0 < R - bs * (C * R / MaxBindVars) := by omega
    exact (rebalance_post bs _ _ _ b l hreb).2.2.2 hl0

theorem planRaw_bindvars (R C b bs l : Nat) (h : planRaw R C = some (b, bs, l)) :
    bs * C ≤ MaxBindVars ∧ l * C ≤ MaxBindVars := by
  rcases planRaw_spec R C b bs l h with ⟨h0, hb, hbs, hl⟩ | ⟨h0, hbs, hreb⟩
  · have hlt : C * R < MaxBindVars :=
      (Nat.div_eq_zero_iff (show 0 < MaxBindVars by decide)).mp h0
    have e : R * C = C * R := Nat.mul_comm R C
    constructor
    · rw [hbs]; simp
    · rw [hl]; omega
  · have hql : C * R < (C * R / MaxBindVars + 1) * MaxBindVars :=
      (Nat.div_lt_iff_lt_mul (show 0 < MaxBindVars by decide)).mp
        (Nat.lt_succ_self _)
    have h1 : bs * (C * R / MaxBindVars + 1) ≤ R := by
      rw [hbs]; exact Nat.div_mul_le_self R _
    have h2 : (bs * C) * (C * R / MaxBindVars + 1) ≤ C * R := by
      calc (bs * C) * (C * R / MaxBindVars + 1)
          = C * (bs * (C * R / MaxBindVars + 1)) := by ring
        _ ≤ C * R := Nat.mul_le_mul_left C h1
    have h3 : (bs * C) * (C * R / MaxBindVars + 1)
        < MaxBindVars * (C * R / MaxBindVars + 1) := by
      calc (bs * C) * (C * R / MaxBindVars + 1) ≤ C * R := h2
        _ < (C * R / MaxBindVars + 1) * MaxBindVars := hql
        _ = MaxBindVars * (C * R / MaxBindVars + 1) := Nat.mul_comm _ _
    have h4 : bs * C < MaxBindVars :=
      lt_of_mul_lt_mul_right h3 (Nat.zero_le _)
    have hlbs : l ≤ bs := (rebalance_post bs _ _ _ b l hreb).1
    exact ⟨le_of_lt h4, le_trans (Nat.mul_le_mul_right C hlbs) (le_of_lt h4)⟩

/-! ## Properties of the result aggregator -/

theorem addAll_concat (r : result) (xs : List SqlResult) (x : SqlResult) :
    r.addAll (xs ++ [x]) = (r.addAll xs).add x := by
  simp [result.addAll, List.foldl_append]

theorem addAll_map_range_succ (res : result) (r : Nat → SqlResult) (n : Nat) :
    res.addAll ((List.range (n+1)).map r)
      = (res.addAll ((List.range n).map r)).add (r n) := by
  rw [show List.range (n+1) = List.range n ++ [n] from by simpa using List.range_succ n,
      List.map_append]
  simp [addAll_concat]

theorem addAll_rowsAffected (xs : List SqlResult) : ∀ (r : result),
    (r.addAll xs).rowsAffected
      = r.rowsAffected + (xs.map SqlResult.rowsAffected).sum := by
  induction xs with
  | nil => intro r; simp [result.addAll]
  | cons x xs ih =>
    intro r
    show ((r.add x).addAll xs).rowsAffected = _
    rw [ih]
    simp [result.add]
    ring

/-! ## Properties of the batch-execution loop -/

theorem range_map_exec_shift {V : Type} (rows : List (List V)) (bs n i : Nat) :
    (List.range (n+1)).map
        (fun j => DbEvent.execStmt (V := V) (batchArgs rows bs (i + j)))
      = DbEvent.execStmt (batchArgs rows bs i)
        :: (List.range n).map
            (fun j => DbEvent.execStmt (batchArgs rows bs (i + 1 + j))) := by
  rw [List.range_succ_eq_map, List.map_cons, List.map_map]
  refine congrArg₂ _ (by simp) (List.map_congr_left (fun j _ => ?_))
  simp only [Function.comp_apply]
  rw [show i + Nat.succ j = i + 1 + j from by omega]

theorem range_map_r_shift (r : Nat → SqlResult) (n i : Nat) :
    (List.range (n+1)).map (fun j => r (i + j))
      = r i :: (List.range n).map (fun j => r (i + 1 + j)) := by
  rw [List.range_succ_eq_map, List.map_cons, List.map_map]
  refine congrArg₂ _ (by simp) (List.map_congr_left (fun j _ => ?_))
  simp only [Function.comp_apply]
  rw [show i + Nat.succ j = i + 1 + j from by omega]

theorem regularLoop_ok {V E : Type} (execOut : Nat → Except E SqlResult)
    (rows : List (List V)) (bs : Nat) (r : Nat → SqlResult) :
    ∀ (n i : Nat) (res : result),
      (∀ j, j < n → execOut (i + j) = Except.ok (r (i + j))) →
      regularLoop execOut rows bs i n res =
        ((List.range n).map (fun j => DbEvent.execStmt (batchArgs rows bs (i + j))),
         res.addAll ((List.range n).map (fun j => r (i + j))), none) := by
  intro n
  induction n with
  | zero =>
    intro i res h
    simp [regularLoop, result.addAll]
  | succ n ih =>
    intro i res h
    have h0 : execOut i = Except.ok (r i) := by simpa using h 0 (Nat.succ_pos n)
    have hrec := ih (i+1) (res.add (r i)) (fun j hj => by
      have hh := h (j+1) (Nat.succ_lt_succ hj)
      rwa [show i + (j + 1) = i + 1 + j from by omega] at hh)
    rw [range_map_exec_shift, range_map_r_shift]
    simp only [regularLoop, h0]
    rw [hrec]
    rfl

theorem regularLoop_ok_zero {V E : Type} (execOut : Nat → Except E SqlResult)
    (rows : List (List V)) (bs : Nat) (r : Nat → SqlResult) (n : Nat) (res : result)
    (h : ∀ j, j < n → execOut j = Except.ok (r j)) :
    regularLoop execOut rows bs 0 n res =
      ((List.range n).map (fun j => DbEvent.execStmt (batchArgs rows bs j)),
       res.addAll ((List.range n).map r), none) := by
  rw [regularLoop_ok execOut rows bs r n 0 res (fun j hj => by simpa using h j hj)]
  congr 1
  · exact List.map_congr_left (fun j _ => by rw [Nat.zero_add])
  · congr 2
    exact List.map_congr_left (fun j _ => by rw [Nat.zero_add])

theorem regularLoop_err {V E : Type} (execOut : Nat → Except E SqlResult)
    (rows : List (List V)) (bs : Nat) (r : Nat → SqlResult) (e : E) :
    ∀ (k n i : Nat) (res : result), k < n →
      (∀ j, j < k → execOut (i + j) = Except.ok (r (i + j))) →
      execOut (i + k) = Except.error e →
      regularLoop execOut rows bs i n res =
        ((List.range (k+1)).map
            (fun j => DbEvent.execStmt (batchArgs rows bs (i + j))),
         res.addAll ((List.range k).map (fun j => r (i + j))), some e) := by
  intro k
  induction k with
  | zero =>
    intro n i res hk hok herr
    obtain ⟨m, rfl⟩ : ∃ m, n = m + 1 := ⟨n - 1, by omega⟩
    have h0 : execOut i = Except.error e := by simpa using herr
    have h1 : List.range 1 = [0] := rfl
    simp [regularLoop, h0, result.addAll, h1]
  | succ k ih =>
    intro n i res hk hok herr
    obtain ⟨m, rfl⟩ : ∃ m, n = m + 1 := ⟨n - 1, by omega⟩
    have h0 : execOut i = Except.ok (r i) := by simpa using hok 0 (Nat.succ_pos k)
    have hrec := ih m (i+1) (res.add (r i)) (by omega)
      (fun j hj => by
        have hh := hok (j+1) (Nat.succ_lt_succ hj)
        rwa [show i + (j + 1) = i + 1 + j from by omega] at hh)
      (by rwa [show i + (k + 1) = i + 1 + k from by omega] at herr)
    rw [range_map_exec_shift, range_map_r_shift]
    simp only [regularLoop, h0]
    rw [hrec]
    rfl

theorem regularLoop_err_zero {V E : Type} (execOut : Nat → Except E SqlResult)
    (rows : List (List V)) (bs : Nat) (r : Nat → SqlResult) (e : E)
    (k n : Nat) (res : result) (hk : k < n)
    (hok : ∀ j, j < k → execOut j = Except.ok (r j))
    (herr : execOut k = Except.error e) :
    regularLoop execOut rows bs 0 n res =
      ((List.range (k+1)).map (fun j => DbEvent.execStmt (batchArgs rows bs j)),
       res.addAll ((List.range k).map r), some e) := by
  rw [regularLoop_err execOut rows bs r e k n 0 res hk
      (fun j hj => by simpa using hok j hj) (by simpa using herr)]
  congr 1
  · exact List.map_congr_left (fun j _ => by rw [Nat.zero_add])
  · congr 2
    exact List.map_congr_left (fun j _ => by rw [Nat.zero_add])

theorem regularLoop_counts {V E : Type} (execOut : Nat → Except E SqlResult)
    (rows : List (List V)) (bs : Nat) :
    ∀ (n i : Nat) (res : result),
      ((regularLoop execOut rows bs i n res).1).countP DbEvent.isClose = 0 ∧
      ((regularLoop execOut rows bs i n res).1).countP DbEvent.isPrep = 0 := by
  intro n
  induction n with
  | zero => intro i res; simp [regularLoop]
  | succ n ih =>
    intro i res
    cases hx : execOut i with
    | error e =>
      simp [regularLoop, hx, DbEvent.isClose, DbEvent.isPrep, List.countP_cons]
    | ok v =>
      have := ih (i+1) (res.add v)
      simp [regularLoop, hx, List.countP_cons, DbEvent.isClose, DbEvent.isPrep,
        this.1, this.2]

/-! ## Properties of the execution model -/

theorem ExecModel_ok {V E : Type} (prepOut : Nat → Option E)
    (execOut : Nat → Except E SqlResult) (casts : List String) (res0 : result)
    (rows : List (List V)) (b bs l : Nat) (r : Nat → SqlResult)
    (hplan : planRaw rows.length casts.length = some (b, bs, l))
    (hprep : ∀ n, prepOut n = none)
    (hexec : ∀ i, execOut i = Except.ok (r i)) :
    ExecModel prepOut execOut casts res0 rows =
      some ((if 0 < b then
               DbEvent.prep bs
                 :: ((List.range b).map
                      (fun j => DbEvent.execStmt (batchArgs rows bs j)))
                 ++ [DbEvent.close]
             else [])
            ++ [DbEvent.prep l,
                DbEvent.execStmt ((rows.drop (rows.length - l)).flatten),
                DbEvent.close],
            res0.addAll ((List.range (b+1)).map r), none) := by
  have hloop := regularLoop_ok_zero execOut rows bs r b res0 (fun j _ => hexec j)
  by_cases hb : 0 < b
  · rw [if_pos hb, addAll_map_range_succ]
    simp only [ExecModel, hplan, if_pos hb, hprep 0, hloop, leftoverRun,
      hprep 1, hexec b]
  · have hb0 : b = 0 := by omega
    subst hb0
    rw [if_neg hb]
    simp only [ExecModel, hplan, if_neg hb, leftoverRun, hprep 0, hexec 0]
    have h1 : List.range 1 = [0] := rfl
    simp [h1, result.addAll]

theorem ExecModel_prep0_err {V E : Type} (prepOut : Nat → Option E)
    (execOut : Nat → Except E SqlResult) (casts : List String) (res0 : result)
    (rows : List (List V)) (b bs l : Nat) (e : E)
    (hplan : planRaw rows.length casts.length = some (b, bs, l))
    (hprep : prepOut 0 = some e) :
    ExecModel prepOut execOut casts res0 rows =
      some ([DbEvent.prep (if 0 < b then bs else l)], res0, some e) := by
  by_cases hb : 0 < b
  · rw [if_pos hb]
    simp only [ExecModel, hplan, if_pos hb, hprep]
  · rw [if_neg hb]
    simp only [ExecModel, hplan, if_neg hb, leftoverRun, hprep]

theorem ExecModel_err_regular {V E : Type} (prepOut : Nat → Option E)
    (execOut : Nat → Except E SqlResult) (casts : List String) (res0 : result)
    (rows : List (List V)) (b bs l k : Nat) (r : Nat → SqlResult) (e : E)
    (hplan : planRaw rows.length casts.length = some (b, bs, l))
    (hb : 0 < b) (hk : k < b) (hprep0 : prepOut 0 = none)
    (hok : ∀ j, j < k → execOut j = Except.ok (r j))
    (herr : execOut k = Except.error e) :
    ExecModel prepOut execOut casts res0 rows =
      some (DbEvent.prep bs
              :: ((List.range (k+1)).map
                   (fun j => DbEvent.execStmt (batchArgs rows bs j)))
              ++ [DbEvent.close],
            res0.addAll ((List.range k).map r), some e) := by
  have hloop := regularLoop_err_zero execOut rows bs r e k b res0 hk hok herr
  simp only [ExecModel, hplan, if_pos hb, hprep0, hloop]

theorem ExecModel_err_leftoverPrep {V E : Type} (prepOut : Nat → Option E)
    (execOut : Nat → Except E SqlResult) (casts : List String) (res0 : result)
    (rows : List (List V)) (b bs l : Nat) (r : Nat → SqlResult) (e : E)
    (hplan : planRaw rows.length casts.length = some (b, bs, l))
    (hb : 0 < b) (hprep0 : prepOut 0 = none) (hprep1 : prepOut 1 = some e)
    (hok : ∀ j, j < b → execOut j = Except.ok (r j)) :
    ExecModel prepOut execOut casts res0 rows =
      some (DbEvent.prep bs
              :: ((List.range b).map
                   (fun j => DbEvent.execStmt (batchArgs rows bs j)))
              ++ [DbEvent.close, DbEvent.prep l],
            res0.addAll ((List.range b).map r), some e) := by
  have hloop := regularLoop_ok_zero execOut rows bs r b res0 hok
  simp only [ExecModel, hplan, if_pos hb, hprep0, hloop, leftoverRun, hprep1]
  simp

theorem ExecModel_err_leftoverExec {V E : Type} (prepOut : Nat → Option E)
    (execOut : Nat → Except E SqlResult) (casts : List String) (res0 : result)
    (rows : List (List V)) (b bs l : Nat) (r : Nat → SqlResult) (e : E)
    (hplan : planRaw rows.length casts.length = some (b, bs, l))
    (hprep : ∀ n, prepOut n = none)
    (hok : ∀ j, j < b → execOut j = Except.ok (r j))
    (herr : execOut b = Except.error e) :
    ExecModel prepOut execOut casts res0 rows =
      some ((if 0 < b then
               DbEvent.prep bs
                 :: ((List.range b).map
                      (fun j => DbEvent.execStmt (batchArgs rows bs j)))
                 ++ [DbEvent.close]
             else [])
            ++ [DbEvent.prep l,
                DbEvent.execStmt ((rows.drop (rows.length - l)).flatten),
                DbEvent.close],
            res0.addAll ((List.range b).map r), some e) := by
  have hloop := regularLoop_ok_zero execOut rows bs r b res0 hok
  by_cases hb : 0 < b
  · rw [if_pos hb]
    simp only [ExecModel, hplan, if_pos hb, hprep 0, hloop, leftoverRun,
      hprep 1, herr]
  · have hb0 : b = 0 := by omega
    subst hb0
    rw [if_neg hb]
    simp only [ExecModel, hplan, if_neg hb, leftoverRun, hprep 0, herr]
    simp [result.addAll]

theorem flatten_chunks {ρ : Type} (xs : List ρ) (bs : Nat) :
    ∀ n, ((List.range n).map (fun i => (xs.drop (i * bs)).take bs)).flatten
      = xs.take (n * bs) := by
  intro n
  induction n with
  | zero => simp
  | succ n ih =>
    have hr : List.range (n+1) = List.range n ++ [n] := by
      simpa using List.range_succ n
    rw [hr, List.map_append, List.flatten_append, ih, Nat.succ_mul, List.take_add]
    simp

/-! ## Event-count helpers -/

theorem countP_execs_isExec {V : Type} (rows : List (List V)) (bs n : Nat) :
    ((List.range n).map
        (fun j => DbEvent.execStmt (V := V) (batchArgs rows bs j))).countP
      DbEvent.isExec = n := by
  rw [List.countP_map]
  calc (List.range n).countP
        (DbEvent.isExec ∘ fun j => DbEvent.execStmt (batchArgs rows bs j))
      = (List.range n).length := List.countP_eq_length.mpr (fun a _ => rfl)
    _ = n := List.length_range n

theorem countP_execs_isPrep {V : Type} (rows : List (List V)) (bs n : Nat) :
    ((List.range n).map
        (fun j => DbEvent.execStmt (V := V) (batchArgs rows bs j))).countP
      DbEvent.isPrep = 0 := by
  rw [List.countP_map]
  exact List.countP_eq_zero.mpr (fun a _ h => by simp [Function.comp,
    DbEvent.isPrep] at h)

theorem countP_execs_isClose {V : Type} (rows : List (List V)) (bs n : Nat) :
    ((List.range n).map
        (fun j => DbEvent.execStmt (V := V) (batchArgs rows bs j))).countP
      DbEvent.isClose = 0 := by
  rw [List.countP_map]
  exact List.countP_eq_zero.mpr (fun a _ h => by simp [Function.comp,
    DbEvent.isClose] at h)

/-! ## Placeholder-builder helpers -/

theorem rowPlaceholders_eq (C i : Nat) :
    ∀ (cs : List String) (j0 : Nat),
      rowPlaceholders C i cs j0 =
        (List.range cs.length).map
          (fun j => specPlaceholder (i * C + (j0 + j) + 1) (cs.getD j "")) := by
  intro cs
  induction cs with
  | nil => intro j0; simp [rowPlaceholders]
  | cons c rest ih =>
    intro j0
    simp only [rowPlaceholders, List.length_cons, List.range_succ_eq_map,
      List.map_cons, List.map_map]
    refine congrArg₂ _ ?_ ?_
    · simp [specPlaceholder, List.getD]
    · rw [ih (j0+1)]
      refine List.map_congr_left (fun j _ => ?_)
      simp only [Function.comp_apply]
      rw [show j0 + Nat.succ j = j0 + 1 + j from by omega]
      congr 1

theorem flat_numbering (N C : Nat) :
    (List.range N).flatMap (fun i => (List.range C).map (fun j => i * C + j + 1))
      = List.range' 1 (N * C) := by
  induction N with
  | zero => simp
  | succ N ih =>
    rw [show List.range (N+1) = List.range N ++ [N] from by
        simpa using List.range_succ N,
      List.flatMap_append, ih]
    simp only [List.flatMap_cons, List.flatMap_nil, List.append_nil]
    have e1 : (List.range C).map (fun j => N * C + j + 1)
        = List.range' (1 + N * C) C := by
      rw [List.range'_eq_map_range]
      exact List.map_congr_left (fun j _ => by omega)
    have e2 : List.range' 1 (N * C) ++ List.range' (1 + N * C) C
        = List.range' 1 (N * C + C) := by
      simpa [Nat.add_comm] using List.range'_append 1 (N * C) C 1
    rw [e1, e2, Nat.succ_mul]

/-! ## Claim C1 -/

/-- C1: for every input row sequence (rowCount ≥ 0, columnCount ≥ 1) whose
planning completes, the planned batches are contiguous, non-overlapping
sub-sequences of the input taken in input order: the plan is the computed
sizes list, those sizes sum exactly to the total row count, and
concatenating the per-batch row slices in plan order yields exactly the
input row sequence. -/
theorem C1_batches_partition_input {ρ : Type} (rows : List ρ) (C b bs l : Nat)
    (hC : 1 ≤ C) (h : planRaw rows.length C = some (b, bs, l)) :
    planSizes rows.length C = some (List.replicate b bs ++ [l]) ∧
    (List.replicate b bs ++ [l]).sum = rows.length ∧
    (plannedSlices rows b bs l).flatten = rows := by
  have hsum := planRaw_sum rows.length C b bs l h
  refine ⟨by simp [planSizes, h], ?_, ?_⟩
  · have e : (List.replicate b bs ++ [l]).sum = b * bs + l := by
      simp [List.sum_replicate, smul_eq_mul]
    omega
  · unfold plannedSlices
    rw [List.flatten_append, flatten_chunks]
    simp only [List.flatten_cons, List.flatten_nil, List.append_nil]
    rw [show rows.length - l = b * bs from by omega, List.take_append_drop]

set_option maxRecDepth 40000 in
theorem C1_batches_partition_input_witness :
    (1 ≤ 363 ∧ planRaw (List.range 363).length 363 = some (2, 121, 121)) ∧
    (planSizes (List.range 363).length 363
        = some (List.replicate 2 121 ++ [121]) ∧
     (List.replicate 2 121 ++ [121]).sum = (List.range 363).length ∧
     (plannedSlices (List.range 363) 2 121 121).flatten = List.range 363) :=
  ⟨⟨by decide, by decide⟩,
   C1_batches_partition_input (List.range 363) 363 2 121 121 (by decide)
     (by decide)⟩

/-! ## Claim C2 -/

/-- C2: for every input (rowCount ≥ 0, columnCount ≥ 1) on which planning
completes, every batch in the plan — each regular batch and the final
leftover batch — carries at most MaxBindVars (65535) bind parameters:
batch size times column count never exceeds the ceiling. -/
theorem C2_bindvar_ceiling (R C : Nat) (sizes : List Nat) (hC : 1 ≤ C)
    (h : planSizes R C = some sizes) :
    ∀ s ∈ sizes, s * C ≤ MaxBindVars := by
  unfold planSizes at h
  cases hp : planRaw R C with
  | none => rw [hp] at h; simp at h
  | some p =>
    obtain ⟨b, bs, l⟩ := p
    rw [hp] at h
    simp only [Option.map_some', Option.some_inj] at h
    subst h
    have hb := planRaw_bindvars R C b bs l hp
    intro s hs
    rcases List.mem_append.mp hs with hs | hs
    · rw [List.eq_of_mem_replicate hs]
      exact hb.1
    · simp only [List.mem_singleton] at hs
      subst hs
      exact hb.2

theorem C2_bindvar_ceiling_witness :
    (1 ≤ 363 ∧ planSizes 363 363 = some [121, 121, 121]) ∧
    ∀ s ∈ [121, 121, 121], s * 363 ≤ MaxBindVars :=
  ⟨⟨by decide, by decide⟩,
   C2_bindvar_ceiling 363 363 [121, 121, 121] (by decide) (by decide)⟩

/-! ## Claim C3 -/

/-- C3 (amended): for every rowCount ≥ 0 and every columnCount with
1 ≤ columnCount < 65535, the batch-planning computation — including the
rebalancing loop — terminates and produces a BatchPlan.  (The restriction
columnCount < 65535 is forced: see the counterexample, where the loop never
terminates.) -/
theorem C3_planning_terminates_below_ceiling (R C : Nat) (hC1 : 1 ≤ C)
    (hC2 : C < MaxBindVars) : (planRaw R C).isSome := by
  by_cases h0 : 0 < C * R / MaxBindVars
  · have hR : 0 < R := by
      by_contra hR
      have hR0 : R = 0 := by omega
      subst hR0
      simp at h0
    have hlt : C * R / MaxBindVars < R := by
      rw [Nat.div_lt_iff_lt_mul (show 0 < MaxBindVars by decide)]
      calc C * R < MaxBindVars * R := mul_lt_mul_of_pos_right hC2 hR
        _ = R * MaxBindVars := Nat.mul_comm _ _
    have hbs : 1 ≤ R / (C * R / MaxBindVars + 1) := by
      rw [Nat.one_le_div_iff (Nat.succ_pos _)]
      omega
    simp only [planRaw, if_pos h0]
    set bs0 := R / (C * R / MaxBindVars + 1) with hbs0
    set l0 := R - bs0 * (C * R / MaxBindVars) with hl0
    have hs := rebalance_isSome bs0 hbs l0 (C * R / MaxBindVars) l0 (le_refl l0)
    cases hreb : rebalance bs0 l0 (C * R / MaxBindVars) l0 with
    | none => rw [hreb] at hs; simp at hs
    | some p => simp
  · simp [planRaw, h0]

theorem C3_planning_terminates_below_ceiling_witness :
    (1 ≤ 2 ∧ 2 < MaxBindVars) ∧ (planRaw 200000 2).isSome :=
  ⟨⟨by decide, by decide⟩,
   C3_planning_terminates_below_ceiling 200000 2 (by decide) (by decide)⟩

/-- C3 counterexample: at rowCount = 1, columnCount = 65535 the planner does
not terminate.  The code computes batches = 65535*1/65535 = 1, then
batchSize = 1/2 = 0 and leftovers = 1, and the loop
`for leftovers > batchSize` subtracts 0 from 1 for ever: the loop state
(batchSize = 0, batches = 1, leftovers = 1) is stuck for every fuel. -/
theorem C3_counterexample : planRaw 1 65535 = none ∧ rebalanceStuck 0 1 1 :=
  ⟨by decide, rebalance_zero_stuck 1 1 (by decide)⟩

/-! ## Claim C7 -/

/-- C7: for every input on which planning completes, all regular batches in
the plan have the identical size batchSize (every entry of the sizes list
except the last equals batchSize), and whenever there is at least one
regular batch the final leftover batch is at most batchSize (never
larger). -/
theorem C7_regular_batches_uniform (R C b bs l : Nat)
    (h : planRaw R C = some (b, bs, l)) :
    planSizes R C = some (List.replicate b bs ++ [l]) ∧
    (∀ x ∈ (List.replicate b bs ++ [l]).dropLast, x = bs) ∧
    (0 < b → l ≤ bs) := by
  refine ⟨by simp [planSizes, h], ?_, planRaw_l_le_bs R C b bs l h⟩
  intro x hx
  rw [List.dropLast_concat] at hx
  exact List.eq_of_mem_replicate hx

theorem C7_regular_batches_uniform_witness :
    planRaw 200000 2 = some (7, 28571, 3) ∧
    (planSizes 200000 2 = some (List.replicate 7 28571 ++ [3]) ∧
     (∀ x ∈ (List.replicate 7 28571 ++ [3]).dropLast, x = 28571) ∧
     (0 < 7 → 3 ≤ 28571)) :=
  ⟨by decide, C7_regular_batches_uniform 200000 2 7 28571 3 (by decide)⟩

/-! ## Claim C10 -/

/-- C10: whenever splitting occurs (the computed number of regular batches
is at least 1) and the computed batchSize is at least 1, the final leftover
batch is non-empty: 1 ≤ leftover ≤ batchSize, so a zero-size final batch
never arises in that regime. -/
theorem C10_final_batch_nonempty (R C b bs l : Nat)
    (h : planRaw R C = some (b, bs, l)) (hb : 1 ≤ b) (hbs : 1 ≤ bs) :
    1 ≤ l ∧ l ≤ bs :=
  ⟨planRaw_l_pos R C b bs l h hb hbs, planRaw_l_le_bs R C b bs l h hb⟩

theorem C10_final_batch_nonempty_witness :
    (planRaw 363 363 = some (2, 121, 121) ∧ 1 ≤ 2 ∧ 1 ≤ 121) ∧
    (1 ≤ 121 ∧ 121 ≤ 121) :=
  ⟨⟨by decide, by decide, by decide⟩,
   C10_final_batch_nonempty 363 363 2 121 121 (by decide) (by decide)
     (by decide)⟩

/-! ## Claim C5 -/

/-- C5: for every batch of N rows and C ≥ 1 columns, the placeholder
fragment numbers row i, column j (0-based) with positional parameter
i*C + j + 1: read off row-major, the parameter numbers are exactly
1..N*C with no gaps or duplicates (starting again at 1 for every batch,
since every batch calls the builder afresh), and the fragment renders
each parameter with `specPlaceholder`: `$N::cast` when the column's cast
annotation is non-empty and plain `$N` when it is empty. -/
theorem C5_placeholder_numbering (casts : List String) (N : Nat)
    (hC : 1 ≤ casts.length) :
    ((List.range N).flatMap
        (fun i => (List.range casts.length).map
          (fun j => i * casts.length + j + 1)))
      = List.range' 1 (N * casts.length) ∧
    valuePlaceholders casts N =
      String.intercalate ",\n" ((List.range N).map (fun i =>
        "(" ++ String.intercalate ", "
            ((List.range casts.length).map (fun j =>
              specPlaceholder (i * casts.length + j + 1) (casts.getD j "")))
          ++ ")")) := by
  refine ⟨flat_numbering N casts.length, ?_⟩
  unfold valuePlaceholders
  refine congrArg _ (List.map_congr_left (fun i _ => ?_))
  rw [rowPlaceholders_eq casts.length i casts 0]
  simp only [Nat.zero_add]

theorem C5_placeholder_numbering_witness :
    (1 ≤ (["", "int", "text"] : List String).length) ∧
    (((List.range 3).flatMap
        (fun i => (List.range (["", "int", "text"] : List String).length).map
          (fun j => i * (["", "int", "text"] : List String).length + j + 1)))
      = List.range' 1 (3 * (["", "int", "text"] : List String).length) ∧
     valuePlaceholders ["", "int", "text"] 3 =
      String.intercalate ",\n" ((List.range 3).map (fun i =>
        "(" ++ String.intercalate ", "
            ((List.range (["", "int", "text"] : List String).length).map
              (fun j =>
                specPlaceholder (i * (["", "int", "text"] : List String).length
                    + j + 1)
                  ((["", "int", "text"] : List String).getD j "")))
          ++ ")"))) :=
  ⟨by decide, C5_placeholder_numbering ["", "int", "text"] 3 (by decide)⟩

/-! ## Claim C8 -/

/-- C8: with 1 column, no casts (cast list [""]) and 0 rows, the plan is a
single empty batch, and execution (with the external prepare and execute
calls succeeding, the execute reporting 0 rows affected) issues one
prepare, one execute with an empty argument list, and one release, and
returns the aggregate with zero rows affected and no error. -/
theorem C8_zero_rows_single_empty_batch :
    planSizes 0 1 = some [0] ∧
    ExecModel (fun _ => (none : Option Nat)) (fun _ => Except.ok ⟨0, 0⟩) [""]
        ⟨0, 0⟩ ([] : List (List Nat)) =
      some ([DbEvent.prep 0, DbEvent.execStmt [], DbEvent.close],
            (⟨0, 0⟩ : result), none) := by
  constructor
  · decide
  · decide

/-! ## Claim C6 -/

/-- C6: for every plan and every injected failure at batch k (1-indexed),
the operation returns the first error together with a result that is
exactly the aggregate of batches 1..k-1, and no batch after k is prepared
or executed.  Part one: a statement-execute failure at batch k (the k-th
execute call errors) yields the aggregate of the k-1 completed batches,
exactly k execute round trips, and — when k is a regular batch — no second
prepare.  Part two: a failure of the first prepare (batch 1 cannot run)
yields the untouched aggregate and no execute round trips.  Part three: a
failure of the leftover-batch prepare (batch b+1) yields the aggregate of
the b regular batches and exactly b execute round trips. -/
theorem C6_fail_fast_partial_result {V E : Type} (casts : List String)
    (res0 : result) (rows : List (List V)) (b bs l : Nat)
    (hplan : planRaw rows.length casts.length = some (b, bs, l)) :
    (∀ (prepOut : Nat → Option E) (execOut : Nat → Except E SqlResult)
        (r : Nat → SqlResult) (k : Nat) (e : E),
        (∀ n, prepOut n = none) → 1 ≤ k → k ≤ b + 1 →
        (∀ j, j < k - 1 → execOut j = Except.ok (r j)) →
        execOut (k - 1) = Except.error e →
        ∃ t, ExecModel prepOut execOut casts res0 rows =
            some (t, res0.addAll ((List.range (k-1)).map r), some e) ∧
          t.countP DbEvent.isExec = k ∧
          (k ≤ b → t.countP DbEvent.isPrep = 1)) ∧
    (∀ (prepOut : Nat → Option E) (execOut : Nat → Except E SqlResult) (e : E),
        prepOut 0 = some e →
        ∃ t, ExecModel prepOut execOut casts res0 rows = some (t, res0, some e) ∧
          t.countP DbEvent.isExec = 0) ∧
    (∀ (prepOut : Nat → Option E) (execOut : Nat → Except E SqlResult)
        (r : Nat → SqlResult) (e : E),
        0 < b → prepOut 0 = none → prepOut 1 = some e →
        (∀ j, j < b → execOut j = Except.ok (r j)) →
        ∃ t, ExecModel prepOut execOut casts res0 rows =
            some (t, res0.addAll ((List.range b).map r), some e) ∧
          t.countP DbEvent.isExec = b) := by
  refine ⟨?_, ?_, ?_⟩
  · intro prepOut execOut r k e hprep hk1 hk2 hok herr
    by_cases hkb : k ≤ b
    · have hb : 0 < b := by omega
      have hk : k - 1 < b := by omega
      have hmod := ExecModel_err_regular prepOut execOut casts res0 rows b bs l
        (k-1) r e hplan hb hk (hprep 0) hok herr
      rw [show k - 1 + 1 = k from by omega] at hmod
      refine ⟨_, hmod, ?_, fun _ => ?_⟩
      · simp [List.countP_cons, List.countP_append, countP_execs_isExec,
          DbEvent.isExec, Function.comp_def, List.countP_true,
          List.countP_false]
      · simp [List.countP_cons, List.countP_append, countP_execs_isPrep,
          DbEvent.isPrep, Function.comp_def, List.countP_true,
          List.countP_false]
    · have hk : k = b + 1 := by omega
      subst hk
      have hok2 : ∀ j, j < b → execOut j = Except.ok (r j) := fun j hj =>
        hok j (by omega)
      have herr2 : execOut b = Except.error e := by
        rw [show b = b + 1 - 1 from by omega]
        exact herr
      have hmod := ExecModel_err_leftoverExec prepOut execOut casts res0 rows
        b bs l r e hplan hprep hok2 herr2
      rw [show b + 1 - 1 = b from by omega]
      refine ⟨_, hmod, ?_, fun hcon => by omega⟩
      by_cases hb : 0 < b
      · simp [hb, List.countP_cons, List.countP_append, countP_execs_isExec,
          DbEvent.isExec, Function.comp_def, List.countP_true,
          List.countP_false]
      · have hb0 : b = 0 := by omega
        subst hb0
        simp [List.countP_cons, DbEvent.isExec]
  · intro prepOut execOut e hpe
    have hmod := ExecModel_prep0_err prepOut execOut casts res0 rows b bs l e
      hplan hpe
    refine ⟨_, hmod, ?_⟩
    simp [List.countP_cons, DbEvent.isExec]
  · intro prepOut execOut r e hb hp0 hp1 hok
    have hmod := ExecModel_err_leftoverPrep prepOut execOut casts res0 rows
      b bs l r e hplan hb hp0 hp1 hok
    refine ⟨_, hmod, ?_⟩
    simp [List.countP_cons, List.countP_append, countP_execs_isExec,
      DbEvent.isExec, Function.comp_def, List.countP_true, List.countP_false]

/-! ## Claim C4 -/

/-- C4 (amended): statement-execute round trips are one per batch, but
statement prepares are one per placeholder-count run, not one per batch:
on a plan with b regular batches, a successful execution issues exactly
b+1 execute round trips but only two prepares when b ≥ 1 (one statement
shared by — and held across — all b regular batches, released before the
leftover batch's statement is prepared) and one prepare when b = 0; and
whenever every prepare succeeds, every prepared statement is released
before Exec returns, also when an execute fails. -/
theorem C4_statement_scoping {V E : Type} (casts : List String) (res0 : result)
    (rows : List (List V)) (b bs l : Nat)
    (hplan : planRaw rows.length casts.length = some (b, bs, l)) :
    (∀ (prepOut : Nat → Option E) (execOut : Nat → Except E SqlResult)
        (r : Nat → SqlResult),
        (∀ n, prepOut n = none) → (∀ i, execOut i = Except.ok (r i)) →
        ∃ t res, ExecModel prepOut execOut casts res0 rows =
            some (t, res, none) ∧
          t.countP DbEvent.isExec = b + 1 ∧
          t.countP DbEvent.isPrep = (if 0 < b then 2 else 1) ∧
          t.countP DbEvent.isClose = t.countP DbEvent.isPrep) ∧
    (∀ (prepOut : Nat → Option E) (execOut : Nat → Except E SqlResult)
        (t : List (DbEvent V)) (res : result) (err : Option E),
        (∀ n, prepOut n = none) →
        ExecModel prepOut execOut casts res0 rows = some (t, res, err) →
        t.countP DbEvent.isClose = t.countP DbEvent.isPrep) := by
  constructor
  · intro prepOut execOut r hprep hexec
    have hmod := ExecModel_ok prepOut execOut casts res0 rows b bs l r hplan
      hprep hexec
    refine ⟨_, _, hmod, ?_, ?_, ?_⟩
    · by_cases hb : 0 < b
      · simp [hb, List.countP_cons, List.countP_append, DbEvent.isExec,
          Function.comp_def, List.countP_true, List.countP_false]
      · have hb0 : b = 0 := by omega
        subst hb0
        simp [List.countP_cons, DbEvent.isExec]
    · by_cases hb : 0 < b
      · simp [hb, List.countP_cons, List.countP_append, DbEvent.isPrep,
          Function.comp_def, List.countP_true, List.countP_false]
      · have hb0 : b = 0 := by omega
        subst hb0
        simp [List.countP_cons, DbEvent.isPrep]
    · by_cases hb : 0 < b
      · simp [hb, List.countP_cons, List.countP_append, DbEvent.isPrep,
          DbEvent.isClose, Function.comp_def, List.countP_true,
          List.countP_false]
      · have hb0 : b = 0 := by omega
        subst hb0
        simp [List.countP_cons, DbEvent.isPrep, DbEvent.isClose]
  · intro prepOut execOut t res err hprep hmodel
    by_cases hb : 0 < b
    · simp only [ExecModel, hplan, if_pos hb, hprep 0] at hmodel
      cases hrun : (regularLoop execOut rows bs 0 b res0).2.2 with
      | some e =>
        rw [hrun] at hmodel
        simp only [Option.some_inj, Prod.mk.injEq] at hmodel
        obtain ⟨ht, _, _⟩ := hmodel
        subst ht
        have hc := regularLoop_counts execOut rows bs b 0 res0
        simp [List.countP_cons, List.countP_append, hc.1, hc.2,
          DbEvent.isPrep, DbEvent.isClose]
      | none =>
        rw [hrun] at hmodel
        cases hx : execOut b with
        | error e2 =>
          simp only [leftoverRun, hprep 1, hx, Option.some_inj,
            Prod.mk.injEq] at hmodel
          obtain ⟨ht, _, _⟩ := hmodel
          subst ht
          have hc := regularLoop_counts execOut rows bs b 0 res0
          simp [List.countP_cons, List.countP_append, hc.1, hc.2,
            DbEvent.isPrep, DbEvent.isClose]
        | ok v =>
          simp only [leftoverRun, hprep 1, hx, Option.some_inj,
            Prod.mk.injEq] at hmodel
          obtain ⟨ht, _, _⟩ := hmodel
          subst ht
          have hc := regularLoop_counts execOut rows bs b 0 res0
          simp [List.countP_cons, List.countP_append, hc.1, hc.2,
            DbEvent.isPrep, DbEvent.isClose]
    · have hb0 : b = 0 := by omega
      subst hb0
      simp only [ExecModel, hplan, if_neg hb, leftoverRun, hprep 0] at hmodel
      cases hx : execOut 0 with
      | error e2 =>
        rw [hx] at hmodel
        simp only [Option.some_inj, Prod.mk.injEq] at hmodel
        obtain ⟨ht, _, _⟩ := hmodel
        subst ht
        simp [List.countP_cons, DbEvent.isPrep, DbEvent.isClose]
      | ok v =>
        rw [hx] at hmodel
        simp only [Option.some_inj, Prod.mk.injEq] at hmodel
        obtain ⟨ht, _, _⟩ := hmodel
        subst ht
        simp [List.countP_cons, DbEvent.isPrep, DbEvent.isClose]

/-! ## Claim C9 -/

/-- C9: the accumulated result lives in a field of the Insert value and
Exec never resets it: when a second Exec call runs on the state left by a
successful first call (whose returned aggregate is r1), the second call
returns r1 further extended by the second call's own batch results — its
rows-affected equals r1's rows-affected plus the sum of only the second
call's per-batch rows-affected, so the first call's accumulation is
included rather than discarded. -/
theorem C9_result_accumulates {V E : Type} (casts : List String)
    (res0 r1 : result) (rows1 rows2 : List (List V))
    (p1 p2 : Nat → Option E) (e1 e2 : Nat → Except E SqlResult)
    (t1 : List (DbEvent V)) (b2 bs2 l2 : Nat) (r : Nat → SqlResult)
    (h1 : ExecModel p1 e1 casts res0 rows1 = some (t1, r1, none))
    (h2 : planRaw rows2.length casts.length = some (b2, bs2, l2))
    (hp2 : ∀ n, p2 n = none) (he2 : ∀ i, e2 i = Except.ok (r i)) :
    ∃ t2, ExecModel p2 e2 casts r1 rows2 =
        some (t2, r1.addAll ((List.range (b2+1)).map r), none) ∧
      (r1.addAll ((List.range (b2+1)).map r)).rowsAffected =
        r1.rowsAffected
          + (((List.range (b2+1)).map r).map SqlResult.rowsAffected).sum :=
  ⟨_, ExecModel_ok p2 e2 casts r1 rows2 b2 bs2 l2 r h2 hp2 he2,
   addAll_rowsAffected ((List.range (b2+1)).map r) r1⟩

theorem C9_result_accumulates_witness :
    (ExecModel (fun _ => (none : Option Nat))
        (fun _ => Except.ok (⟨3, 10⟩ : SqlResult)) [""] (⟨0, 0⟩ : result)
        ([[5]] : List (List Nat))
      = some ([DbEvent.prep 1, DbEvent.execStmt [5], DbEvent.close],
              (⟨3, 10⟩ : result), none) ∧
     planRaw ([[6]] : List (List Nat)).length ([""] : List String).length
      = some (0, 0, 1)) ∧
    (∃ t2, ExecModel (fun _ => (none : Option Nat))
          (fun _ => Except.ok (⟨4, 11⟩ : SqlResult)) [""] (⟨3, 10⟩ : result)
          ([[6]] : List (List Nat)) =
        some (t2, result.addAll ⟨3, 10⟩
            ((List.range (0+1)).map (fun _ => (⟨4, 11⟩ : SqlResult))), none) ∧
      (result.addAll ⟨3, 10⟩
          ((List.range (0+1)).map
            (fun _ => (⟨4, 11⟩ : SqlResult)))).rowsAffected =
        (⟨3, 10⟩ : result).rowsAffected
          + ((((List.range (0+1)).map (fun _ => (⟨4, 11⟩ : SqlResult))).map
              SqlResult.rowsAffected)).sum) :=
  ⟨⟨by decide, by decide⟩,
   C9_result_accumulates [""] ⟨0, 0⟩ ⟨3, 10⟩ [[5]] [[6]]
     (fun _ => none) (fun _ => none)
     (fun _ => Except.ok ⟨3, 10⟩) (fun _ => Except.ok ⟨4, 11⟩)
     [DbEvent.prep 1, DbEvent.execStmt [5], DbEvent.close]
     0 0 1 (fun _ => ⟨4, 11⟩) (by decide) (by decide)
     (fun _ => rfl) (fun _ => rfl)⟩

set_option maxRecDepth 200000 in
theorem C6_fail_fast_partial_result_witness :
    (planRaw (List.replicate 363 ([0] : List Nat)).length
        (List.replicate 363 "").length = some (2, 121, 121) ∧
     (∀ n : Nat, (none : Option Nat) = none) ∧ 1 ≤ 2 ∧ 2 ≤ 2 + 1 ∧
     (∀ j, j < 2 - 1 →
        (if j = 0 then Except.ok (⟨1, 0⟩ : SqlResult)
         else Except.error (9 : Nat))
          = Except.ok (⟨1, 0⟩ : SqlResult)) ∧
     (if 2 - 1 = 0 then Except.ok (⟨1, 0⟩ : SqlResult)
      else Except.error (9 : Nat)) = Except.error 9) ∧
    (∃ t, ExecModel (fun _ => (none : Option Nat))
          (fun i => if i = 0 then Except.ok (⟨1, 0⟩ : SqlResult)
                    else Except.error 9)
          (List.replicate 363 "") (⟨0, 0⟩ : result)
          (List.replicate 363 ([0] : List Nat)) =
        some (t, result.addAll ⟨0, 0⟩
            ((List.range (2-1)).map (fun _ => (⟨1, 0⟩ : SqlResult))), some 9) ∧
      t.countP DbEvent.isExec = 2 ∧
      (2 ≤ 2 → t.countP DbEvent.isPrep = 1)) :=
  ⟨⟨by decide, fun _ => rfl, by decide, by decide,
    fun j hj => by
      have h0 : j = 0 := by omega
      subst h0
      rfl,
    by rfl⟩,
   (C6_fail_fast_partial_result (List.replicate 363 "") ⟨0, 0⟩
      (List.replicate 363 ([0] : List Nat)) 2 121 121 (by decide)).1
     (fun _ => none)
     (fun i => if i = 0 then Except.ok ⟨1, 0⟩ else Except.error 9)
     (fun _ => ⟨1, 0⟩) 2 9 (fun _ => rfl) (by decide) (by decide)
     (fun j hj => by
       have h0 : j = 0 := by omega
       subst h0
       rfl)
     (by rfl)⟩

set_option maxRecDepth 200000 in
theorem C4_statement_scoping_witness :
    (planRaw (List.replicate 363 ([0] : List Nat)).length
        (List.replicate 363 "").length = some (2, 121, 121) ∧
     (∀ n : Nat, (none : Option Nat) = none) ∧
     (∀ i : Nat, (Except.ok (⟨1, 0⟩ : SqlResult) : Except Nat SqlResult)
        = Except.ok ⟨1, 0⟩)) ∧
    (∃ t res, ExecModel (fun _ => (none : Option Nat))
          (fun _ => Except.ok (⟨1, 0⟩ : SqlResult))
          (List.replicate 363 "") (⟨0, 0⟩ : result)
          (List.replicate 363 ([0] : List Nat)) = some (t, res, none) ∧
      t.countP DbEvent.isExec = 2 + 1 ∧
      t.countP DbEvent.isPrep = (if 0 < 2 then 2 else 1) ∧
      t.countP DbEvent.isClose = t.countP DbEvent.isPrep) :=
  ⟨⟨by decide, fun _ => rfl, fun _ => rfl⟩,
   (C4_statement_scoping (List.replicate 363 "") ⟨0, 0⟩
      (List.replicate 363 ([0] : List Nat)) 2 121 121 (by decide)).1
     (fun _ => none) (fun _ => Except.ok ⟨1, 0⟩) (fun _ => ⟨1, 0⟩)
     (fun _ => rfl) (fun _ => rfl)⟩

set_option maxRecDepth 1000000 in
/-- C4 counterexample: on 363 input rows with 363 columns the plan has
three batches (sizes [121, 121, 121]) yet a fully successful execution
issues only two statement-prepare round trips — not one per batch — and
two execute round trips happen before the first statement release, so the
regular-run statement is held across two batches. -/
theorem C4_counterexample :
    (ExecModel (fun _ => (none : Option Nat))
        (fun _ => Except.ok (⟨1, 0⟩ : SqlResult))
        (List.replicate 363 "") (⟨0, 0⟩ : result)
        (List.replicate 363 ([0] : List Nat))).map
      (fun x => (x.1.countP DbEvent.isPrep,
                 (x.1.takeWhile (fun ev => !ev.isClose)).countP DbEvent.isExec))
      = some (2, 2) ∧
    (planSizes 363 363).map List.length = some 3 ∧ ¬ (2 : Nat) = 3 :=
  ⟨by decide, by decide, by decide⟩
